import Mathlib

/-!
Verification of the cache-aside record service in `src/app/app.py`
(Flask todo app backed by Postgres and fronted by a Redis collection cache).

The embedding models, at the Python-value level:
  * `PyVal` — the JSON-serializable Python values flowing through the handlers
    (including `datetime` objects as returned by the database driver);
  * `dumps` / `loadsE` — `json.dumps(·, default=serialize_datetime)` and
    `json.loads`, implemented as a real encoder and recursive-descent parser
    over character lists (non-ASCII characters are kept raw: the
    `ensure_ascii` transport encoding of CPython is an invertible
    re-encoding orthogonal to everything proved here);
  * the store (`DB`), the Redis collection-key cache with TTL (`Cache`), and
    the five route handlers as state-passing functions that also emit the
    trace of store/cache interactions they perform.
-/

set_option autoImplicit false

namespace TodoApp

/-! ### Decimal digits -/

/-- The decimal digit character for `n < 10`. -/
def digitChar (n : Nat) : Char := Char.ofNat (48 + n)

/-- The decimal digit characters of `n`, most significant first. -/
def natChars (n : Nat) : List Char :=
  if _ : n < 10 then [digitChar n]
  else natChars (n / 10) ++ [digitChar (n % 10)]
  decreasing_by exact Nat.div_lt_self (by omega) (by omega)

/-- Integer literal characters, with a leading minus sign for negatives. -/
def intChars (n : Int) : List Char :=
  if n < 0 then '-' :: natChars n.natAbs else natChars n.natAbs

/-- Consume a maximal run of decimal digits, folding them onto `acc`. -/
def readDigits : List Char → Nat → Nat × List Char
  | [], acc => (acc, [])
  | c :: cs, acc =>
    if c.isDigit then readDigits cs (acc * 10 + (c.toNat - 48)) else (acc, c :: cs)

/-- `l` does not start with a decimal digit. -/
def noDigitHead : List Char → Bool
  | [] => true
  | c :: _ => !c.isDigit

theorem digitChar_spec : ∀ n, n < 10 →
    (digitChar n).isDigit = true ∧ (digitChar n).toNat = 48 + n := by decide

theorem natChars_ne_nil (n : Nat) : natChars n ≠ [] := by
  rw [natChars]
  split
  · simp
  · simp

theorem readDigits_stop (l : List Char) (acc : Nat) (h : noDigitHead l = true) :
    readDigits l acc = (acc, l) := by
  cases l with
  | nil => rfl
  | cons c cs =>
    simp [noDigitHead] at h
    simp [readDigits, h]

theorem readDigits_natChars (n : Nat) : ∀ acc rest,
    readDigits (natChars n ++ rest) acc =
      readDigits rest (acc * 10 ^ (natChars n).length + n) := by
  induction n using Nat.strong_induction_on with
  | _ n ih =>
    intro acc rest
    rw [natChars]
    split
    · next h =>
      have hd := digitChar_spec n h
      simp [readDigits, hd.1, hd.2]
    · next h =>
      rw [List.append_assoc]
      rw [ih (n / 10) (Nat.div_lt_self (by omega) (by omega))]
      have h10 : n % 10 < 10 := Nat.mod_lt _ (by omega)
      have hd := digitChar_spec (n % 10) h10
      simp only [List.cons_append, List.nil_append, readDigits, hd.1, if_true, hd.2]
      have harith : (acc * 10 ^ (natChars (n / 10)).length + n / 10) * 10 +
          (48 + n % 10 - 48) = acc * 10 ^ ((natChars (n / 10)).length + 1) + n := by
        have : 48 + n % 10 - 48 = n % 10 := by omega
        rw [this, pow_succ]
        ring_nf
        omega
      rw [harith]
      congr 1
      simp [List.length_append]

/-- `n` printed as decimal, left-padded with zeros to at least `k` characters
(the behavior of a `%0kd` format). -/
def padNat (k n : Nat) : List Char :=
  List.replicate (k - (natChars n).length) '0' ++ natChars n

theorem readDigits_zeros (j : Nat) : ∀ l, readDigits (List.replicate j '0' ++ l) 0 = readDigits l 0 := by
  induction j with
  | zero => intro l; rfl
  | succ j ih =>
    intro l
    simp only [List.replicate_succ, List.cons_append, readDigits]
    norm_num
    exact ih l

theorem readDigits_padNat (k n : Nat) (rest : List Char) (h : noDigitHead rest = true) :
    readDigits (padNat k n ++ rest) 0 = (n, rest) := by
  rw [padNat, List.append_assoc, readDigits_zeros, readDigits_natChars,
    readDigits_stop _ _ h]
  simp

/-! ### Datetimes and `serialize_datetime`

The database driver returns the `created_at` column as a Python `datetime`
object; `serialize_datetime` renders it with `datetime.isoformat()`
("YYYY-MM-DDTHH:MM:SS" with a ".ffffff" microsecond suffix when nonzero). -/

/-- A Python `datetime` value (naive, as stored by the database). -/
structure DateTime where
  year : Nat
  month : Nat
  day : Nat
  hour : Nat
  minute : Nat
  second : Nat
  usec : Nat
deriving DecidableEq

/-- The characters of `datetime.isoformat()`. -/
def isoChars (d : DateTime) : List Char :=
  padNat 4 d.year ++ '-' :: padNat 2 d.month ++ '-' :: padNat 2 d.day ++
    'T' :: padNat 2 d.hour ++ ':' :: padNat 2 d.minute ++ ':' :: padNat 2 d.second ++
    (if d.usec = 0 then [] else '.' :: padNat 6 d.usec)

/-- `datetime.isoformat()`. -/
def isoformat (d : DateTime) : String := ⟨isoChars d⟩

/-- `datetime.fromisoformat` restricted to the shapes `isoformat` produces:
the inverse reading of the unambiguous textual timestamp form. -/
def fromIsoChars (cs : List Char) : Option DateTime :=
  let p := readDigits cs 0
  match p.2 with
  | '-' :: cs =>
    let p2 := readDigits cs 0
    match p2.2 with
    | '-' :: cs =>
      let p3 := readDigits cs 0
      match p3.2 with
      | 'T' :: cs =>
        let p4 := readDigits cs 0
        match p4.2 with
        | ':' :: cs =>
          let p5 := readDigits cs 0
          match p5.2 with
          | ':' :: cs =>
            let p6 := readDigits cs 0
            match p6.2 with
            | [] => some ⟨p.1, p2.1, p3.1, p4.1, p5.1, p6.1, 0⟩
            | '.' :: cs =>
              let p7 := readDigits cs 0
              match p7.2 with
              | [] => some ⟨p.1, p2.1, p3.1, p4.1, p5.1, p6.1, p7.1⟩
              | _ => none
            | _ => none
          | _ => none
        | _ => none
      | _ => none
    | _ => none
  | _ => none

/-- `datetime.fromisoformat` on strings. -/
def fromIso (s : String) : Option DateTime := fromIsoChars s.data

theorem readDigits_padNat_nil (k n : Nat) : readDigits (padNat k n) 0 = (n, []) := by
  have := readDigits_padNat k n [] rfl
  simpa using this

theorem noDigitHead_dash (l : List Char) : noDigitHead ('-' :: l) = true := rfl

theorem noDigitHead_colon (l : List Char) : noDigitHead (':' :: l) = true := rfl

theorem noDigitHead_upperT (l : List Char) : noDigitHead ('T' :: l) = true := rfl

theorem noDigitHead_dot (l : List Char) : noDigitHead ('.' :: l) = true := rfl

theorem fromIsoChars_isoChars (d : DateTime) : fromIsoChars (isoChars d) = some d := by
  obtain ⟨y, mo, da, h, mi, se, us⟩ := d
  by_cases hus : us = 0
  · subst hus
    simp only [isoChars, if_pos rfl, List.append_nil, List.append_assoc]
    simp [fromIsoChars, readDigits_padNat, readDigits_padNat_nil, noDigitHead_dash,
      noDigitHead_colon, noDigitHead_upperT, noDigitHead_dot]
  · simp only [isoChars, if_neg hus, List.append_assoc]
    simp [fromIsoChars, readDigits_padNat, readDigits_padNat_nil, noDigitHead_dash,
      noDigitHead_colon, noDigitHead_upperT, noDigitHead_dot]

theorem fromIso_isoformat (d : DateTime) : fromIso (isoformat d) = some d :=
  fromIsoChars_isoChars d

/-! ### Python values -/

/-- The JSON-serializable Python values flowing through the handlers,
plus `datetime` objects (which the driver returns for `created_at` and
which `json.dumps` serializes through the `serialize_datetime` hook). -/
inductive PyVal where
  | none
  | bool (b : Bool)
  | int (n : Int)
  | str (s : String)
  | dt (d : DateTime)
  | list (xs : List PyVal)
  | dict (kvs : List (String × PyVal))

mutual

def pyBeq : PyVal → PyVal → Bool
  | .none, .none => true
  | .bool a, .bool b => a == b
  | .int a, .int b => a == b
  | .str a, .str b => a == b
  | .dt a, .dt b => decide (a = b)
  | .list a, .list b => pyListBeq a b
  | .dict a, .dict b => pyDictBeq a b
  | _, _ => false

def pyListBeq : List PyVal → List PyVal → Bool
  | [], [] => true
  | p :: ps, q :: qs => pyBeq p q && pyListBeq ps qs
  | _, _ => false

def pyDictBeq : List (String × PyVal) → List (String × PyVal) → Bool
  | [], [] => true
  | (k, p) :: ps, (l, q) :: qs => k == l && pyBeq p q && pyDictBeq ps qs
  | _, _ => false

end

mutual

theorem pyBeq_iff : ∀ a b : PyVal, pyBeq a b = true ↔ a = b
  | .none, b => by cases b <;> simp [pyBeq]
  | .bool a, b => by cases b <;> simp [pyBeq]
  | .int a, b => by cases b <;> simp [pyBeq]
  | .str a, b => by cases b <;> simp [pyBeq]
  | .dt a, b => by cases b <;> simp [pyBeq]
  | .list a, b => by
    cases b <;> simp [pyBeq]
    exact pyListBeq_iff a _
  | .dict a, b => by
    cases b <;> simp [pyBeq]
    exact pyDictBeq_iff a _

theorem pyListBeq_iff : ∀ a b : List PyVal, pyListBeq a b = true ↔ a = b
  | [], b => by cases b <;> simp [pyListBeq]
  | a :: as, b => by
    cases b with
    | nil => simp [pyListBeq]
    | cons b bs =>
      simp [pyListBeq, pyBeq_iff a b, pyListBeq_iff as bs]

theorem pyDictBeq_iff : ∀ a b : List (String × PyVal), pyDictBeq a b = true ↔ a = b
  | [], b => by cases b <;> simp [pyDictBeq]
  | (k, a) :: as, b => by
    cases b with
    | nil => simp [pyDictBeq]
    | cons kb bs =>
      obtain ⟨l, bv⟩ := kb
      simp [pyDictBeq, pyBeq_iff a bv, pyDictBeq_iff as bs, and_assoc]

end

instance : DecidableEq PyVal := fun a b =>
  decidable_of_iff (pyBeq a b = true) (pyBeq_iff a b)

deriving instance DecidableEq for Except

/-- Python truthiness of the values the cache probe can yield. -/
def truthy : PyVal → Bool
  | .none => false
  | .bool b => b
  | .int n => !(n == 0)
  | .str s => !(s == "")
  | .dt _ => true
  | .list xs => !xs.isEmpty
  | .dict kvs => !kvs.isEmpty

/-- `isinstance(·, str)`. -/
def isStr : PyVal → Bool
  | .str _ => true
  | _ => false

/-! ### `json.dumps(·, default=serialize_datetime)` -/

/-- Python error values raised by the modeled library calls. -/
inductive PyErr where
  | keyError (k : String)
  | typeError (m : String)
  | jsonError (m : String)
deriving DecidableEq

/-- `serialize_datetime` from `app.py`: the `json.dumps` default hook.
A `datetime` is rendered with `isoformat()`; any other unserializable
object raises `TypeError`. -/
def serialize_datetime (v : PyVal) : Except PyErr String :=
  match v with
  | .dt d => .ok (isoformat d)
  | _ => .error (.typeError "Type not serializable")

/-- Lower-case hexadecimal digit for `n < 16`. -/
def hexDigitChar (n : Nat) : Char := if n < 10 then digitChar n else Char.ofNat (87 + n)

/-- The six-character `\u00XX` escape of a control character code. -/
def ctrlEsc (n : Nat) : List Char :=
  '\\' :: 'u' :: '0' :: '0' :: hexDigitChar (n / 16) :: [hexDigitChar (n % 16)]

/-- JSON string escaping as `json.dumps` performs it (quotes, backslashes and
control characters; non-ASCII characters are kept raw, see the header note). -/
def escChar (c : Char) : List Char :=
  if c = '"' then ['\\', '"']
  else if c = '\\' then ['\\', '\\']
  else if c = '\n' then ['\\', 'n']
  else if c = '\t' then ['\\', 't']
  else if c = '\r' then ['\\', 'r']
  else if c.toNat < 32 then ctrlEsc c.toNat
  else [c]

/-- Escape every character of a string body. -/
def escape : List Char → List Char
  | [] => []
  | c :: cs => escChar c ++ escape cs

/-- A JSON string literal: quote, escaped body, quote. -/
def strChars (s : String) : List Char := '"' :: escape s.data ++ ['"']

mutual

/-- Characters of `json.dumps(v, default=serialize_datetime)` (default
separators, i.e. item separator comma-space and key separator colon-space).
Every `PyVal` constructor other than `dt` is natively serializable, and on a
`dt` the default hook — `serialize_datetime` — yields the `isoformat` string,
so the encoder is total. -/
def dumpsChars : PyVal → List Char
  | .none => "null".data
  | .bool true => "true".data
  | .bool false => "false".data
  | .int n => intChars n
  | .str s => strChars s
  | .dt d => strChars (isoformat d)
  | .list xs => '[' :: dumpsList xs ++ [']']
  | .dict kvs => '\x7b' :: dumpsDict kvs ++ ['\x7d']

def dumpsList : List PyVal → List Char
  | [] => []
  | [v] => dumpsChars v
  | v :: vs => dumpsChars v ++ ',' :: ' ' :: dumpsList vs

def dumpsDict : List (String × PyVal) → List Char
  | [] => []
  | [(k, v)] => strChars k ++ ':' :: ' ' :: dumpsChars v
  | (k, v) :: kvs => strChars k ++ ':' :: ' ' :: dumpsChars v ++ ',' :: ' ' :: dumpsDict kvs

end

/-- `json.dumps(v, default=serialize_datetime)`. -/
def dumps (v : PyVal) : String := ⟨dumpsChars v⟩

mutual

/-- The JSON shape of a Python value: what serializing and deserializing it
yields, with every `datetime` replaced by its `isoformat` string and all
other constructors unchanged. -/
def jsonize : PyVal → PyVal
  | .dt d => .str (isoformat d)
  | .list xs => .list (jsonizeList xs)
  | .dict kvs => .dict (jsonizeDict kvs)
  | v => v

def jsonizeList : List PyVal → List PyVal
  | [] => []
  | v :: vs => jsonize v :: jsonizeList vs

def jsonizeDict : List (String × PyVal) → List (String × PyVal)
  | [] => []
  | (k, v) :: kvs => (k, jsonize v) :: jsonizeDict kvs

end

/-! ### `json.loads` -/

/-- JSON whitespace. -/
def isWs (c : Char) : Bool := c = ' ' || c = '\n' || c = '\t' || c = '\r'

/-- Skip leading whitespace. -/
def skipWs : List Char → List Char
  | [] => []
  | c :: cs => if isWs c then skipWs cs else c :: cs

/-- Value of a hexadecimal digit character. -/
def hexVal (c : Char) : Option Nat :=
  if c.isDigit then some (c.toNat - 48)
  else if 'a' ≤ c ∧ c ≤ 'f' then some (c.toNat - 87)
  else if 'A' ≤ c ∧ c ≤ 'F' then some (c.toNat - 55)
  else Option.none

/-- Parse the body of a JSON string literal after the opening quote,
accumulating decoded characters in reverse; stops at the closing quote. -/
def parseStrBody : List Char → List Char → Option (List Char × List Char)
  | [], _ => Option.none
  | c :: cs, acc =>
    if c = '"' then some (acc.reverse, cs)
    else if c = '\\' then
      match cs with
      | [] => Option.none
      | e :: cs' =>
        if e = '"' then parseStrBody cs' ('"' :: acc)
        else if e = '\\' then parseStrBody cs' ('\\' :: acc)
        else if e = 'n' then parseStrBody cs' ('\n' :: acc)
        else if e = 't' then parseStrBody cs' ('\t' :: acc)
        else if e = 'r' then parseStrBody cs' ('\r' :: acc)
        else if e = 'u' then
          match cs' with
          | a :: b :: f :: g :: cs'' =>
            match hexVal a, hexVal b, hexVal f, hexVal g with
            | some x1, some x2, some x3, some x4 =>
              parseStrBody cs'' (Char.ofNat (((x1 * 16 + x2) * 16 + x3) * 16 + x4) :: acc)
            | _, _, _, _ => Option.none
          | _ => Option.none
        else Option.none
    else if c.toNat < 32 then Option.none
    else parseStrBody cs (c :: acc)
  termination_by l _ => l.length
  decreasing_by all_goals simp_arith [List.length]

mutual

/-- Recursive-descent JSON value parser (the behavior of `json.loads` on the
payloads this service produces and probes); `fuel` bounds the recursion depth
and is instantiated with the input length, which suffices. -/
def parseVal : Nat → List Char → Option (PyVal × List Char)
  | 0, _ => Option.none
  | fuel + 1, cs0 =>
    match skipWs cs0 with
    | [] => Option.none
    | c :: cs =>
      if c = 'n' then
        match cs with
        | 'u' :: 'l' :: 'l' :: rest => some (PyVal.none, rest)
        | _ => Option.none
      else if c = 't' then
        match cs with
        | 'r' :: 'u' :: 'e' :: rest => some (PyVal.bool true, rest)
        | _ => Option.none
      else if c = 'f' then
        match cs with
        | 'a' :: 'l' :: 's' :: 'e' :: rest => some (PyVal.bool false, rest)
        | _ => Option.none
      else if c = '"' then
        match parseStrBody cs [] with
        | some (l, rest) => some (PyVal.str ⟨l⟩, rest)
        | Option.none => Option.none
      else if c = '-' then
        match cs with
        | d :: _ =>
          if d.isDigit then
            let p := readDigits cs 0
            some (PyVal.int (-(p.1 : Int)), p.2)
          else Option.none
        | [] => Option.none
      else if c.isDigit then
        let p := readDigits (c :: cs) 0
        some (PyVal.int (p.1 : Int), p.2)
      else if c = '[' then
        match skipWs cs with
        | ']' :: rest => some (PyVal.list [], rest)
        | cs' => parseElems fuel cs' []
      else if c = '\x7b' then
        match skipWs cs with
        | '\x7d' :: rest => some (PyVal.dict [], rest)
        | cs' => parseMembers fuel cs' []
      else Option.none

/-- Parse the remaining elements of a nonempty JSON array. -/
def parseElems : Nat → List Char → List PyVal → Option (PyVal × List Char)
  | 0, _, _ => Option.none
  | fuel + 1, cs, acc =>
    match parseVal fuel cs with
    | Option.none => Option.none
    | some (v, cs1) =>
      match skipWs cs1 with
      | ',' :: cs2 => parseElems fuel cs2 (v :: acc)
      | ']' :: cs2 => some (PyVal.list (v :: acc).reverse, cs2)
      | _ => Option.none

/-- Parse the remaining members of a nonempty JSON object. -/
def parseMembers : Nat → List Char → List (String × PyVal) → Option (PyVal × List Char)
  | 0, _, _ => Option.none
  | fuel + 1, cs, acc =>
    match skipWs cs with
    | [] => Option.none
    | c :: cs1 =>
      if c = '"' then
        match parseStrBody cs1 [] with
        | some (k, cs2) =>
          match skipWs cs2 with
          | ':' :: cs3 =>
            match parseVal fuel cs3 with
            | some (v, cs4) =>
              match skipWs cs4 with
              | ',' :: cs5 => parseMembers fuel cs5 ((⟨k⟩, v) :: acc)
              | '\x7d' :: cs5 => some (PyVal.dict ((⟨k⟩, v) :: acc).reverse, cs5)
              | _ => Option.none
            | Option.none => Option.none
          | _ => Option.none
        | Option.none => Option.none
      else Option.none

end

/-- `json.loads`: parse the full string, requiring all input be consumed. -/
def loadsE (s : String) : Except PyErr PyVal :=
  match parseVal (s.data.length + 1) s.data with
  | some (v, rest) =>
    match skipWs rest with
    | [] => .ok v
    | _ => .error (.jsonError "Extra data")
  | Option.none => .error (.jsonError "Expecting value")

/-! ### The parser inverts the serializer -/

theorem hexVal_hexDigitChar : ∀ m, m < 16 → hexVal (hexDigitChar m) = some m := by
  decide

theorem parseStrBody_escape (l : List Char) : ∀ acc rest,
    parseStrBody (escape l ++ '"' :: rest) acc = some (acc.reverse ++ l, rest) := by
  induction l with
  | nil =>
    intro acc rest
    rw [parseStrBody.eq_def]
    simp [escape]
  | cons c l ih =>
    intro acc rest
    simp only [escape, List.append_assoc]
    by_cases h1 : c = '"'
    · subst h1
      rw [escChar, if_pos rfl]
      rw [List.cons_append, List.cons_append, List.nil_append, parseStrBody.eq_def]
      simp [ih]
    · by_cases h2 : c = '\\'
      · subst h2
        rw [escChar, if_neg (by decide), if_pos rfl]
        rw [List.cons_append, List.cons_append, List.nil_append, parseStrBody.eq_def]
        simp [ih]
      · by_cases h3 : c = '\n'
        · subst h3
          rw [escChar, if_neg (by decide), if_neg (by decide), if_pos rfl]
          rw [List.cons_append, List.cons_append, List.nil_append, parseStrBody.eq_def]
          simp [ih]
        · by_cases h4 : c = '\t'
          · subst h4
            rw [escChar, if_neg (by decide), if_neg (by decide), if_neg (by decide), if_pos rfl]
            rw [List.cons_append, List.cons_append, List.nil_append, parseStrBody.eq_def]
            simp [ih]
          · by_cases h5 : c = '\r'
            · subst h5
              rw [escChar, if_neg (by decide), if_neg (by decide), if_neg (by decide),
                if_neg (by decide), if_pos rfl]
              rw [List.cons_append, List.cons_append, List.nil_append, parseStrBody.eq_def]
              simp [ih]
            · by_cases h6 : c.toNat < 32
              · have hhi : c.toNat / 16 < 16 := by omega
                have hlo : c.toNat % 16 < 16 := Nat.mod_lt _ (by omega)
                rw [escChar, if_neg h1, if_neg h2, if_neg h3, if_neg h4, if_neg h5, if_pos h6]
                simp only [ctrlEsc, List.cons_append, List.nil_append]
                rw [parseStrBody.eq_def]
                have hval : ∀ a : List Char,
                    Char.ofNat (((0 * 16 + 0) * 16 + c.toNat / 16) * 16 + c.toNat % 16) :: a =
                      c :: a := by
                  intro a
                  have : ((0 * 16 + 0) * 16 + c.toNat / 16) * 16 + c.toNat % 16 = c.toNat := by
                    omega
                  rw [this, Char.ofNat_toNat]
                have h0 : hexVal '0' = some 0 := rfl
                simp [h0, hexVal_hexDigitChar _ hhi, hexVal_hexDigitChar _ hlo, hval, ih]
                have hfin : c.toNat / 16 * 16 + c.toNat % 16 = c.toNat := by omega
                rw [hfin, Char.ofNat_toNat]
              · rw [escChar, if_neg h1, if_neg h2, if_neg h3, if_neg h4, if_neg h5, if_neg h6]
                simp only [List.cons_append, List.nil_append]
                rw [parseStrBody.eq_def]
                simp [h1, h2, h6, ih]

mutual

/-- Recursion-depth measure of a value: a lower bound on the parser fuel
needed to reparse its serialization. -/
def fuelOf : PyVal → Nat
  | .list xs => fuelList xs + 1
  | .dict kvs => fuelDict kvs + 1
  | _ => 1

def fuelList : List PyVal → Nat
  | [] => 0
  | v :: vs => fuelOf v + fuelList vs + 1

def fuelDict : List (String × PyVal) → Nat
  | [] => 0
  | (_, v) :: kvs => fuelOf v + fuelDict kvs + 1

end

theorem fuelOf_pos (v : PyVal) : 1 ≤ fuelOf v := by
  cases v <;> simp [fuelOf]

/-- The first character of a serialized value: never whitespace and never a
closing bracket or brace, so the parser's dispatch cannot confuse it with an
empty-collection closer. -/
def goodHead : List Char → Bool
  | [] => false
  | c :: _ => !isWs c && !(c == ']') && !(c == '\x7d')

theorem goodHead_append (l l' : List Char) (h : l ≠ []) :
    goodHead (l ++ l') = goodHead l := by
  cases l with
  | nil => exact absurd rfl h
  | cons c cs => rfl

theorem natChars_head (n : Nat) : ∃ k tl, k < 10 ∧ natChars n = digitChar k :: tl := by
  induction n using Nat.strong_induction_on with
  | _ n ih =>
    rw [natChars]
    split
    · next h => exact ⟨n, [], h, rfl⟩
    · next h =>
      obtain ⟨k, tl, hk, he⟩ := ih (n / 10) (Nat.div_lt_self (by omega) (by omega))
      exact ⟨k, tl ++ [digitChar (n % 10)], hk, by rw [he]; rfl⟩

theorem digitChar_props : ∀ k, k < 10 →
    (digitChar k).isDigit = true ∧ digitChar k ≠ 'n' ∧ digitChar k ≠ 't' ∧
    digitChar k ≠ 'f' ∧ digitChar k ≠ '"' ∧ digitChar k ≠ '-' ∧
    goodHead [digitChar k] = true := by decide

theorem dumpsChars_ne_nil (v : PyVal) : dumpsChars v ≠ [] := by
  cases v with
  | int n =>
    rw [dumpsChars, intChars]
    split
    · simp
    · exact natChars_ne_nil _
  | bool b => cases b <;> simp [dumpsChars]
  | str s => simp [dumpsChars, strChars]
  | dt d => simp [dumpsChars, strChars]
  | _ => simp [dumpsChars]

theorem goodHead_natChars (n : Nat) : goodHead (natChars n) = true := by
  obtain ⟨k, tl, hk, he⟩ := natChars_head n
  rw [he]
  have := (digitChar_props k hk).2.2.2.2.2.2
  rw [show goodHead (digitChar k :: tl) = goodHead [digitChar k] from rfl]
  exact this

theorem dumpsChars_good (v : PyVal) : goodHead (dumpsChars v) = true := by
  cases v with
  | int n =>
    rw [dumpsChars, intChars]
    split
    · rfl
    · exact goodHead_natChars _
  | bool b => cases b <;> rfl
  | _ => rfl

theorem skipWs_good (l X : List Char) (h : goodHead l = true) :
    skipWs (l ++ X) = l ++ X := by
  cases l with
  | nil => simp [goodHead] at h
  | cons c cs =>
    simp only [goodHead, Bool.and_eq_true, Bool.not_eq_true'] at h
    simp [skipWs, h.1.1]

theorem goodHead_ne_rb (l X r : List Char) (h : goodHead l = true)
    (he : l ++ X = ']' :: r) : False := by
  cases l with
  | nil => simp [goodHead] at h
  | cons c cs =>
    simp only [List.cons_append, List.cons.injEq] at he
    obtain ⟨he1, -⟩ := he
    subst he1
    simp [goodHead] at h

theorem goodHead_ne_rc (l X r : List Char) (h : goodHead l = true)
    (he : l ++ X = '\x7d' :: r) : False := by
  cases l with
  | nil => simp [goodHead] at h
  | cons c cs =>
    simp only [List.cons_append, List.cons.injEq] at he
    obtain ⟨he1, -⟩ := he
    subst he1
    simp [goodHead] at h

theorem readDigits_natChars' (m : Nat) (rest : List Char) (h : noDigitHead rest = true) :
    readDigits (natChars m ++ rest) 0 = (m, rest) := by
  rw [readDigits_natChars, readDigits_stop _ _ h]
  simp

theorem noDigitHead_comma (l : List Char) : noDigitHead (',' :: l) = true := rfl

theorem noDigitHead_rb (l : List Char) : noDigitHead (']' :: l) = true := rfl

theorem noDigitHead_rc (l : List Char) : noDigitHead ('\x7d' :: l) = true := rfl

theorem dumpsList_cons2 (x y : PyVal) (ys : List PyVal) :
    dumpsList (x :: y :: ys) = dumpsChars x ++ ',' :: ' ' :: dumpsList (y :: ys) := rfl

theorem goodHead_dumpsList (x : PyVal) (xs : List PyVal) :
    goodHead (dumpsList (x :: xs)) = true := by
  cases xs with
  | nil => exact dumpsChars_good x
  | cons y ys =>
    rw [dumpsList_cons2, goodHead_append _ _ (dumpsChars_ne_nil x)]
    exact dumpsChars_good x

theorem parseVal_ws (fuel : Nat) (l : List Char) :
    parseVal fuel (' ' :: l) = parseVal fuel l := by
  cases fuel with
  | zero => rfl
  | succ f => rfl

theorem parseMembers_ws (fuel : Nat) (l : List Char) (acc : List (String × PyVal)) :
    parseMembers fuel (' ' :: l) acc = parseMembers fuel l acc := by
  cases fuel with
  | zero => rfl
  | succ f => rfl

theorem parseElems_ws (fuel : Nat) (l : List Char) (acc : List PyVal) :
    parseElems fuel (' ' :: l) acc = parseElems fuel l acc := by
  cases fuel with
  | zero => rfl
  | succ f =>
    simp only [parseElems]
    rw [parseVal_ws]


theorem skipWs_rb (l : List Char) : skipWs (']' :: l) = ']' :: l := rfl
theorem skipWs_rc (l : List Char) : skipWs ('\x7d' :: l) = '\x7d' :: l := rfl
theorem skipWs_comma (l : List Char) : skipWs (',' :: l) = ',' :: l := rfl
theorem skipWs_colon (l : List Char) : skipWs (':' :: l) = ':' :: l := rfl

theorem strChars_ne_nil (s : String) : strChars s ≠ [] := by simp [strChars]

theorem goodHead_dumpsDict (k : String) (v : PyVal) (kvs : List (String × PyVal)) :
    goodHead (dumpsDict ((k, v) :: kvs)) = true := by
  cases kvs with
  | nil =>
    rw [show dumpsDict [(k, v)] = strChars k ++ (':' :: ' ' :: dumpsChars v) from rfl]
    rw [goodHead_append _ _ (strChars_ne_nil k)]
    rfl
  | cons p ps =>
    obtain ⟨k2, v2⟩ := p
    simp only [dumpsDict]
    rw [List.append_assoc, goodHead_append _ _ (strChars_ne_nil k)]
    rfl

theorem string_eta (s : String) : (⟨s.data⟩ : String) = s := rfl

theorem parse_dumps : ∀ fuel : Nat,
    (∀ v rest, fuelOf v ≤ fuel → noDigitHead rest = true →
      parseVal fuel (dumpsChars v ++ rest) = some (jsonize v, rest))
  ∧ (∀ x xs acc rest, fuelList (x :: xs) ≤ fuel → noDigitHead rest = true →
      parseElems fuel (dumpsList (x :: xs) ++ ']' :: rest) acc =
        some (PyVal.list (acc.reverse ++ jsonizeList (x :: xs)), rest))
  ∧ (∀ k v kvs acc rest, fuelDict ((k, v) :: kvs) ≤ fuel → noDigitHead rest = true →
      parseMembers fuel (dumpsDict ((k, v) :: kvs) ++ '\x7d' :: rest) acc =
        some (PyVal.dict (acc.reverse ++ jsonizeDict ((k, v) :: kvs)), rest)) := by
  intro fuel
  induction fuel with
  | zero =>
    refine ⟨?_, ?_, ?_⟩
    · intro v rest hf _
      have := fuelOf_pos v
      omega
    · intro x xs acc rest hf _
      simp [fuelList] at hf
    · intro k v kvs acc rest hf _
      simp [fuelDict] at hf
  | succ fuel ih =>
    obtain ⟨ihA, ihB, ihC⟩ := ih
    refine ⟨?_, ?_, ?_⟩
    · -- parseVal
      intro v rest hf hr
      cases v with
      | none => rfl
      | bool b => cases b <;> rfl
      | str s =>
        have hd : dumpsChars (PyVal.str s) ++ rest = '"' :: (escape s.data ++ '"' :: rest) := by
          simp [dumpsChars, strChars]
        rw [hd]
        have h1 : parseVal (fuel + 1) ('"' :: (escape s.data ++ '"' :: rest)) =
            (match parseStrBody (escape s.data ++ '"' :: rest) [] with
             | some (l, r) => some (PyVal.str ⟨l⟩, r)
             | Option.none => Option.none) := rfl
        rw [h1, parseStrBody_escape]
        simp [jsonize]
      | dt d =>
        have hd : dumpsChars (PyVal.dt d) ++ rest =
            '"' :: (escape (isoformat d).data ++ '"' :: rest) := by
          simp [dumpsChars, strChars]
        rw [hd]
        have h1 : parseVal (fuel + 1) ('"' :: (escape (isoformat d).data ++ '"' :: rest)) =
            (match parseStrBody (escape (isoformat d).data ++ '"' :: rest) [] with
             | some (l, r) => some (PyVal.str ⟨l⟩, r)
             | Option.none => Option.none) := rfl
        rw [h1, parseStrBody_escape]
        simp [jsonize, string_eta]
      | int n =>
        have hd : dumpsChars (PyVal.int n) = intChars n := rfl
        rw [hd, intChars]
        by_cases hn : n < 0
        · rw [if_pos hn]
          obtain ⟨k, tl, hk, he⟩ := natChars_head n.natAbs
          rw [List.cons_append, he]
          have h1 : parseVal (fuel + 1) ('-' :: (digitChar k :: (tl ++ rest))) =
              (if (digitChar k).isDigit = true then
                some (PyVal.int (-((readDigits (digitChar k :: (tl ++ rest)) 0).1 : Int)),
                  (readDigits (digitChar k :: (tl ++ rest)) 0).2)
               else Option.none) := rfl
          rw [List.cons_append]
          rw [h1, if_pos (digitChar_props k hk).1]
          rw [show digitChar k :: (tl ++ rest) = (digitChar k :: tl) ++ rest from rfl, ← he,
            readDigits_natChars' _ _ hr]
          simp [jsonize]
          rw [abs_of_neg hn]
          ring
        · rw [if_neg hn]
          obtain ⟨k, tl, hk, he⟩ := natChars_head n.natAbs
          rw [he]
          have hskip : skipWs (digitChar k :: (tl ++ rest)) = digitChar k :: (tl ++ rest) := by
            have := (digitChar_props k hk).2.2.2.2.2.2
            simp only [goodHead, Bool.and_eq_true, Bool.not_eq_true'] at this
            simp [skipWs, this]
          have h1 : parseVal (fuel + 1) (digitChar k :: (tl ++ rest)) =
              some (PyVal.int ((readDigits (digitChar k :: (tl ++ rest)) 0).1 : Int),
                (readDigits (digitChar k :: (tl ++ rest)) 0).2) := by
            rw [parseVal.eq_def]
            simp only [hskip]
            rw [if_neg (digitChar_props k hk).2.1, if_neg (digitChar_props k hk).2.2.1,
              if_neg (digitChar_props k hk).2.2.2.1, if_neg (digitChar_props k hk).2.2.2.2.1,
              if_neg (digitChar_props k hk).2.2.2.2.2.1, if_pos (digitChar_props k hk).1]
          rw [List.cons_append, h1]
          rw [show digitChar k :: (tl ++ rest) = (digitChar k :: tl) ++ rest from rfl, ← he,
            readDigits_natChars' _ _ hr]
          have hnn : (n.natAbs : Int) = n := Int.natAbs_of_nonneg (by omega)
          simp [jsonize, hnn]
      | list xs =>
        cases xs with
        | nil => rfl
        | cons x xs =>
          have hfl : fuelList (x :: xs) ≤ fuel := by
            simp only [fuelOf] at hf
            omega
          have hd : dumpsChars (PyVal.list (x :: xs)) ++ rest =
              '[' :: (dumpsList (x :: xs) ++ (']' :: rest)) := by
            simp [dumpsChars]
          rw [hd]
          have h1 : parseVal (fuel + 1) ('[' :: (dumpsList (x :: xs) ++ ']' :: rest)) =
              (match skipWs (dumpsList (x :: xs) ++ ']' :: rest) with
               | ']' :: r => some (PyVal.list [], r)
               | cs' => parseElems fuel cs' []) := rfl
          rw [h1, skipWs_good _ _ (goodHead_dumpsList x xs)]
          split
          · next r heq =>
            exact absurd heq (fun hh => goodHead_ne_rb _ _ _ (goodHead_dumpsList x xs) hh)
          · next cs' hne =>
            rw [ihB x xs [] rest hfl hr]
            simp [jsonize]
      | dict kvs =>
        cases kvs with
        | nil => rfl
        | cons p kvs =>
          obtain ⟨k, v⟩ := p
          have hfl : fuelDict ((k, v) :: kvs) ≤ fuel := by
            simp only [fuelOf] at hf
            omega
          have hd : dumpsChars (PyVal.dict ((k, v) :: kvs)) ++ rest =
              '\x7b' :: (dumpsDict ((k, v) :: kvs) ++ ('\x7d' :: rest)) := by
            simp [dumpsChars]
          rw [hd]
          have h1 : parseVal (fuel + 1) ('\x7b' :: (dumpsDict ((k, v) :: kvs) ++ '\x7d' :: rest)) =
              (match skipWs (dumpsDict ((k, v) :: kvs) ++ '\x7d' :: rest) with
               | '\x7d' :: r => some (PyVal.dict [], r)
               | cs' => parseMembers fuel cs' []) := rfl
          rw [h1, skipWs_good _ _ (goodHead_dumpsDict k v kvs)]
          split
          · next r heq =>
            exact absurd heq (fun hh => goodHead_ne_rc _ _ _ (goodHead_dumpsDict k v kvs) hh)
          · next cs' hne =>
            rw [ihC k v kvs [] rest hfl hr]
            simp [jsonize]
    · -- parseElems
      intro x xs acc rest hf hr
      cases xs with
      | nil =>
        have hfx : fuelOf x ≤ fuel := by
          simp only [fuelList] at hf
          omega
        have hds : dumpsList [x] = dumpsChars x := rfl
        rw [hds]
        have h1 : parseElems (fuel + 1) (dumpsChars x ++ ']' :: rest) acc =
            (match parseVal fuel (dumpsChars x ++ ']' :: rest) with
             | Option.none => Option.none
             | some (v, cs1) =>
               match skipWs cs1 with
               | ',' :: cs2 => parseElems fuel cs2 (v :: acc)
               | ']' :: cs2 => some (PyVal.list (v :: acc).reverse, cs2)
               | _ => Option.none) := rfl
        rw [h1, ihA x (']' :: rest) hfx (noDigitHead_rb rest)]
        simp [skipWs_rb, jsonizeList]
      | cons y ys =>
        have hfx : fuelOf x ≤ fuel := by
          simp only [fuelList] at hf
          omega
        have hfl : fuelList (y :: ys) ≤ fuel := by
          simp only [fuelList] at hf ⊢
          omega
        rw [dumpsList_cons2]
        have hassoc : (dumpsChars x ++ ',' :: ' ' :: dumpsList (y :: ys)) ++ ']' :: rest =
            dumpsChars x ++ ',' :: ' ' :: (dumpsList (y :: ys) ++ ']' :: rest) := by
          simp [List.append_assoc]
        rw [hassoc]
        have h1 : parseElems (fuel + 1)
            (dumpsChars x ++ ',' :: ' ' :: (dumpsList (y :: ys) ++ ']' :: rest)) acc =
            (match parseVal fuel (dumpsChars x ++ ',' :: ' ' :: (dumpsList (y :: ys) ++ ']' :: rest)) with
             | Option.none => Option.none
             | some (v, cs1) =>
               match skipWs cs1 with
               | ',' :: cs2 => parseElems fuel cs2 (v :: acc)
               | ']' :: cs2 => some (PyVal.list (v :: acc).reverse, cs2)
               | _ => Option.none) := rfl
        rw [h1, ihA x (',' :: ' ' :: (dumpsList (y :: ys) ++ ']' :: rest)) hfx (noDigitHead_comma _)]
        simp only [skipWs_comma]
        rw [parseElems_ws, ihB y ys (jsonize x :: acc) rest hfl hr]
        simp [jsonizeList]
    · -- parseMembers
      intro k v kvs acc rest hf hr
      cases kvs with
      | nil =>
        have hfv : fuelOf v ≤ fuel := by
          simp only [fuelDict] at hf
          omega
        have hd : dumpsDict [(k, v)] ++ '\x7d' :: rest =
            '"' :: (escape k.data ++ '"' :: (':' :: ' ' :: (dumpsChars v ++ '\x7d' :: rest))) := by
          rw [show dumpsDict [(k, v)] = strChars k ++ (':' :: ' ' :: dumpsChars v) from rfl, strChars]
          simp [List.append_assoc]
        rw [hd]
        have h1 : parseMembers (fuel + 1)
            ('"' :: (escape k.data ++ '"' :: (':' :: ' ' :: (dumpsChars v ++ '\x7d' :: rest)))) acc =
            (match parseStrBody (escape k.data ++ '"' :: (':' :: ' ' :: (dumpsChars v ++ '\x7d' :: rest))) [] with
             | some (kk, cs2) =>
               match skipWs cs2 with
               | ':' :: cs3 =>
                 match parseVal fuel cs3 with
                 | some (w, cs4) =>
                   match skipWs cs4 with
                   | ',' :: cs5 => parseMembers fuel cs5 ((⟨kk⟩, w) :: acc)
                   | '\x7d' :: cs5 => some (PyVal.dict ((⟨kk⟩, w) :: acc).reverse, cs5)
                   | _ => Option.none
                 | Option.none => Option.none
               | _ => Option.none
             | Option.none => Option.none) := rfl
        rw [h1, parseStrBody_escape]
        simp only [List.nil_append, List.reverse_nil, skipWs_colon]
        rw [parseVal_ws, ihA v ('\x7d' :: rest) hfv (noDigitHead_rc rest)]
        simp [skipWs_rc, string_eta, jsonizeDict]
      | cons p kvs =>
        obtain ⟨k2, v2⟩ := p
        have hfv : fuelOf v ≤ fuel := by
          simp only [fuelDict] at hf
          omega
        have hfl : fuelDict ((k2, v2) :: kvs) ≤ fuel := by
          simp only [fuelDict] at hf ⊢
          omega
        have hd : dumpsDict ((k, v) :: (k2, v2) :: kvs) ++ '\x7d' :: rest =
            '"' :: (escape k.data ++ '"' :: (':' :: ' ' ::
              (dumpsChars v ++ ',' :: ' ' :: (dumpsDict ((k2, v2) :: kvs) ++ '\x7d' :: rest)))) := by
          simp [dumpsDict, strChars]
        rw [hd]
        have h1 : parseMembers (fuel + 1)
            ('"' :: (escape k.data ++ '"' :: (':' :: ' ' ::
              (dumpsChars v ++ ',' :: ' ' :: (dumpsDict ((k2, v2) :: kvs) ++ '\x7d' :: rest))))) acc =
            (match parseStrBody (escape k.data ++ '"' :: (':' :: ' ' ::
                (dumpsChars v ++ ',' :: ' ' :: (dumpsDict ((k2, v2) :: kvs) ++ '\x7d' :: rest)))) [] with
             | some (kk, cs2) =>
               match skipWs cs2 with
               | ':' :: cs3 =>
                 match parseVal fuel cs3 with
                 | some (w, cs4) =>
                   match skipWs cs4 with
                   | ',' :: cs5 => parseMembers fuel cs5 ((⟨kk⟩, w) :: acc)
                   | '\x7d' :: cs5 => some (PyVal.dict ((⟨kk⟩, w) :: acc).reverse, cs5)
                   | _ => Option.none
                 | Option.none => Option.none
               | _ => Option.none
             | Option.none => Option.none) := rfl
        rw [h1, parseStrBody_escape]
        simp only [List.nil_append, List.reverse_nil, skipWs_colon, string_eta]
        rw [parseVal_ws,
          ihA v (',' :: ' ' :: (dumpsDict ((k2, v2) :: kvs) ++ '\x7d' :: rest)) hfv (noDigitHead_comma _)]
        simp only [skipWs_comma]
        rw [parseMembers_ws, ihC k2 v2 kvs ((k, jsonize v) :: acc) rest hfl hr]
        simp [string_eta, jsonizeDict]

mutual

theorem fuelOf_le : ∀ v : PyVal, fuelOf v ≤ (dumpsChars v).length
  | .none => by simp [fuelOf, dumpsChars]
  | .bool b => by cases b <;> simp [fuelOf, dumpsChars]
  | .int n => by
    have h1 : natChars n.natAbs ≠ [] := natChars_ne_nil _
    have h2 : 1 ≤ (natChars n.natAbs).length := by
      cases he : natChars n.natAbs with
      | nil => exact absurd he h1
      | cons c cs => simp
    simp only [fuelOf, dumpsChars, intChars]
    split
    · simp only [List.length_cons]
      omega
    · omega
  | .str s => by simp [fuelOf, dumpsChars, strChars]
  | .dt d => by simp [fuelOf, dumpsChars, strChars]
  | .list xs => by
    have := fuelList_le xs
    simp only [fuelOf, dumpsChars]
    simp only [List.length_cons, List.length_append, List.length_singleton]
    omega
  | .dict kvs => by
    have := fuelDict_le kvs
    simp only [fuelOf, dumpsChars]
    simp only [List.length_cons, List.length_append, List.length_singleton]
    omega

theorem fuelList_le : ∀ xs : List PyVal, fuelList xs ≤ (dumpsList xs).length + 1
  | [] => by simp [fuelList, dumpsList]
  | [v] => by
    have := fuelOf_le v
    simp only [fuelList, dumpsList]
    omega
  | v :: v2 :: vs => by
    have h1 := fuelOf_le v
    have h2 := fuelList_le (v2 :: vs)
    simp only [fuelList, dumpsList_cons2, List.length_append, List.length_cons]
    simp only [fuelList] at h2
    omega

theorem fuelDict_le : ∀ kvs : List (String × PyVal), fuelDict kvs ≤ (dumpsDict kvs).length + 1
  | [] => by simp [fuelDict, dumpsDict]
  | [(k, v)] => by
    have := fuelOf_le v
    simp only [fuelDict, dumpsDict, List.length_append, List.length_cons]
    omega
  | (k, v) :: (k2, v2) :: kvs => by
    have h1 := fuelOf_le v
    have h2 := fuelDict_le ((k2, v2) :: kvs)
    simp only [fuelDict, dumpsDict, List.length_append, List.length_cons]
    simp only [fuelDict] at h2
    omega

end

/-- The parser inverts the serializer: `json.loads(json.dumps(v,
default=serialize_datetime))` succeeds on every Python value the service
serializes and yields its JSON shape. -/
theorem loads_dumps (v : PyVal) : loadsE (dumps v) = .ok (jsonize v) := by
  have hA := (parse_dumps ((dumpsChars v).length + 1)).1
  have h := hA v [] (by have := fuelOf_le v; omega) rfl
  rw [List.append_nil] at h
  have hdata : (dumps v).data = dumpsChars v := rfl
  simp only [loadsE, hdata, h]
  rfl

/-! ### The record store, the cache, and the route handlers

`app.py` stores rows in the `todos` table (columns `id`, `title`,
`completed`, `created_at`); `id` is assigned by the store, `completed`
defaults to false and `created_at` to the insertion time.  The UPDATE
statement sets `title` and `completed` to the bound parameters
(`data.get('title')` / `data.get('completed')`, i.e. `None`/SQL NULL when
the field is not supplied), so both columns are modeled as nullable. -/

/-- A row of the `todos` table as the `RealDictCursor` returns it. -/
structure Row where
  id : Nat
  title : Option String
  completed : Option Bool
  created_at : DateTime
deriving DecidableEq

/-- The `RealDictCursor` dict for a row (insertion order: table column
order `id`, `title`, `completed`, `created_at`). -/
def rowToPy (r : Row) : PyVal :=
  .dict [("id", .int (Int.ofNat r.id)),
         ("title", match r.title with | some t => .str t | Option.none => .none),
         ("completed", match r.completed with | some b => .bool b | Option.none => .none),
         ("created_at", .dt r.created_at)]

/-- `fetchone()` result serialized: a row dict or `None`. -/
def optRowToPy : Option Row → PyVal
  | some r => rowToPy r
  | Option.none => .none

/-- The `todos` table. -/
structure DB where
  rows : List Row
  nextId : Nat
deriving DecidableEq

/-- `SELECT * FROM todos` (store order). -/
def DB.selectAll (db : DB) : List Row := db.rows

/-- `SELECT * FROM todos WHERE id = %s` + `fetchone()`. -/
def DB.selectById (db : DB) (i : Nat) : Option Row :=
  db.rows.find? (fun r => r.id == i)

/-- `INSERT INTO todos (title) VALUES (%s) RETURNING *`: the store assigns
the id, defaults `completed` to false and `created_at` to the insertion
time. -/
def DB.insert (db : DB) (t : String) (now : DateTime) : DB × Row :=
  let r : Row := ⟨db.nextId, some t, some false, now⟩
  (⟨db.rows ++ [r], db.nextId + 1⟩, r)

/-- `UPDATE todos SET title = %s, completed = %s WHERE id = %s RETURNING *`
+ `fetchone()`: both columns are set to the bound parameters on the
matching row. -/
def DB.updateById (db : DB) (i : Nat) (t : Option String) (c : Option Bool) :
    DB × Option Row :=
  match db.rows.find? (fun r => r.id == i) with
  | Option.none => (db, Option.none)
  | some r =>
    let r' : Row := { r with title := t, completed := c }
    (⟨db.rows.map (fun x => if x.id == i then r' else x), db.nextId⟩, some r')

/-- `DELETE FROM todos WHERE id = %s`; the flag reports whether a row was
removed (the handler ignores it). -/
def DB.deleteById (db : DB) (i : Nat) : DB × Bool :=
  (⟨db.rows.filter (fun r => !(r.id == i)), db.nextId⟩,
   db.rows.any (fun r => r.id == i))

/-- The Redis cache, reduced to its single key `all_todos`: the stored
value together with its absolute expiry time (seconds). -/
structure Cache where
  entry : Option (PyVal × Nat)
deriving DecidableEq

/-- `redis.get('all_todos')` at time `now`: the stored value while it has
not expired, else `None`. -/
def Cache.get (c : Cache) (now : Nat) : Option PyVal :=
  match c.entry with
  | some (v, exp) => if now < exp then some v else Option.none
  | Option.none => Option.none

/-- `redis.set('all_todos', payload, ex=ttl)` at time `now`. -/
def Cache.setEx (_ : Cache) (payload : String) (ttl now : Nat) : Cache :=
  ⟨some (.str payload, now + ttl)⟩

/-- `redis.delete('all_todos')`. -/
def Cache.del (_ : Cache) : Cache := ⟨Option.none⟩

/-- The TTL passed as `ex=60` in `get_todos`. -/
def TTL : Nat := 60

/-- The shared service state: the store and the cache. -/
structure St where
  db : DB
  cache : Cache
deriving DecidableEq

/-- The externally visible store/cache interactions of one request, in
order. -/
inductive Ev where
  | dbConnect
  | dbQuery
  | dbCommit
  | cacheGet
  | cacheSet
  | cacheDel
deriving DecidableEq

/-- The JSON body of a mutating request: `data.get('title')` and
`data.get('completed')`; a `none` field is an absent key (`data['title']`
raises `KeyError` exactly then). -/
structure ReqData where
  title : Option String
  completed : Option Bool
deriving DecidableEq

/-- Outcome of one request: the value passed to `jsonify` (or the
propagated Python error), the resulting state, and the interaction
trace. -/
structure OpResult where
  ret : Except PyErr PyVal
  st : St
  tr : List Ev
deriving DecidableEq

/-- `json.loads(json.dumps(todo, default=serialize_datetime))` as the
handlers apply it to a fetched row before `jsonify`. -/
def pyRoundtrip (v : PyVal) : Except PyErr PyVal := loadsE (dumps v)

/-- POST `/todos` (`create_todo`): reads `data['title']` — which raises
`KeyError` when absent, after the connection and cursor are already
created but before any statement executes — then inserts, commits, and
deletes the collection cache key. -/
def createTodo (st : St) (data : ReqData) (now : DateTime) : OpResult :=
  match data.title with
  | Option.none =>
    ⟨.error (.keyError "title"), st, [.dbConnect]⟩
  | some t =>
    let p := st.db.insert t now
    ⟨pyRoundtrip (rowToPy p.2), ⟨p.1, st.cache.del⟩,
     [.dbConnect, .dbQuery, .dbCommit, .cacheDel]⟩

/-- The cache-miss path of GET `/todos`: query the store, serialize, cache
under the collection key with `ex=60`, return the rows (the `cacheGet`
event of the preceding probe is included in the trace). -/
def getTodosMiss (st : St) (now : Nat) : OpResult :=
  let todos := st.db.selectAll
  let payload := dumps (.list (todos.map rowToPy))
  ⟨.ok (.list (todos.map rowToPy)),
   ⟨st.db, st.cache.setEx payload TTL now⟩,
   [.cacheGet, .dbConnect, .dbQuery, .cacheSet]⟩

/-- GET `/todos` (`get_todos`): probe the cache; the guard
`if cached_todos and isinstance(cached_todos, str)` passes exactly for a
present, truthy (nonempty) string, in which case `json.loads(cached)` is
returned without consulting the store; otherwise fall through to the
store and repopulate the cache. -/
def getTodos (st : St) (now : Nat) : OpResult :=
  let cached := (st.cache.get now).getD .none
  match cached with
  | .str s =>
    if s = "" then getTodosMiss st now
    else ⟨loadsE s, st, [.cacheGet]⟩
  | _ => getTodosMiss st now

/-- GET `/todos/<id>` (`get_todo`): store read only, no cache interaction;
a missing row serializes to `null`. -/
def getTodo (st : St) (i : Nat) : OpResult :=
  ⟨pyRoundtrip (optRowToPy (st.db.selectById i)), st, [.dbConnect, .dbQuery]⟩

/-- PUT `/todos/<id>` (`update_todo`): update both columns from
`data.get(...)`, commit, delete the collection cache key unconditionally,
and return the updated row (`null` when no row matched). -/
def updateTodo (st : St) (i : Nat) (data : ReqData) : OpResult :=
  let p := st.db.updateById i data.title data.completed
  ⟨pyRoundtrip (optRowToPy p.2), ⟨p.1, st.cache.del⟩,
   [.dbConnect, .dbQuery, .dbCommit, .cacheDel]⟩

/-- DELETE `/todos/<id>` (`delete_todo`): delete the row if present,
commit, delete the collection cache key unconditionally, and return the
fixed success message regardless of whether a row was removed. -/
def deleteTodo (st : St) (i : Nat) : OpResult :=
  let p := st.db.deleteById i
  ⟨.ok (.dict [("message", .str "deleted")]), ⟨p.1, st.cache.del⟩,
   [.dbConnect, .dbQuery, .dbCommit, .cacheDel]⟩

/-! ### Support lemmas for the claims -/

/-- Every `cacheDel` event in the trace is preceded by an earlier
`dbCommit` (scanning left to right; `seen` records whether a commit has
occurred yet). -/
def cbdAux : Bool → List Ev → Bool
  | _, [] => true
  | seen, e :: tr =>
    match e with
    | .dbCommit => cbdAux true tr
    | .cacheDel => seen && cbdAux seen tr
    | _ => cbdAux seen tr

/-- The store commit strictly precedes every cache invalidation in the
trace. -/
def commitPrecedesDel (tr : List Ev) : Bool := cbdAux false tr

/-- Store-side events of a trace (connection, statement, commit). -/
def isStoreEv : Ev → Bool
  | .dbConnect => true
  | .dbQuery => true
  | .dbCommit => true
  | _ => false

/-- Modelled from the spec: the reader of the cached serialized form that
the round-trip property speaks about.  The repository itself returns the
deserialized JSON value as-is (no converter back to driver rows exists in
`app.py`), so the spec's reader — id, title and completed taken directly,
the timestamp recovered from its unambiguous ISO-8601 textual form — is
modelled here. -/
def decodeRow (v : PyVal) : Option Row :=
  match v with
  | .dict [(k1, .int (Int.ofNat n)), (k2, tv), (k3, cv), (k4, .str s)] =>
    if k1 = "id" then
      if k2 = "title" then
        if k3 = "completed" then
          if k4 = "created_at" then
            match (match tv with
                   | .none => some Option.none
                   | .str t => some (some t)
                   | _ => Option.none),
                  (match cv with
                   | .none => some Option.none
                   | .bool b => some (some b)
                   | _ => Option.none),
                  fromIso s with
            | some t, some c, some d => some ⟨n, t, c, d⟩
            | _, _, _ => Option.none
          else Option.none
        else Option.none
      else Option.none
    else Option.none
  | _ => Option.none

theorem dumps_list_ne_empty (l : List PyVal) : ¬ dumps (.list l) = "" := by
  intro h
  have := congrArg String.data h
  simp [dumps, dumpsChars] at this

theorem find?_update_row (rows : List Row) (i : Nat) (r r' : Row)
    (h : rows.find? (fun x => x.id == i) = some r) (hid : r'.id = r.id) :
    (rows.map fun x => if x.id == i then r' else x).find? (fun x => x.id == i) =
      some r' := by
  induction rows with
  | nil => simp at h
  | cons x xs ih =>
    by_cases hx : (x.id == i) = true
    · simp only [List.find?, hx] at h
      have hxr : x = r := by injection h
      subst hxr
      have hr' : (r'.id == i) = true := by
        rw [hid]
        exact hx
      simp only [List.map_cons, if_pos hx, List.find?, hr']
    · have hx' : (x.id == i) = false := by simpa using hx
      simp only [List.find?, hx'] at h
      simp only [List.map_cons, hx']
      simp only [Bool.false_eq_true, if_false, List.find?, hx']
      exact ih h

theorem filter_no_match (rows : List Row) (i : Nat)
    (h : rows.find? (fun x => x.id == i) = Option.none) :
    rows.filter (fun r => !(r.id == i)) = rows := by
  rw [List.filter_eq_self]
  intro a ha
  have := List.find?_eq_none.mp h a ha
  simp at this
  simp [this]

theorem getTodos_of_none (st : St) (now : Nat) (h : st.cache.get now = Option.none) :
    getTodos st now = getTodosMiss st now := by
  simp only [getTodos, h, Option.getD]

theorem getTodos_of_nonstr (st : St) (now : Nat) (v : PyVal)
    (h : st.cache.get now = some v) (hns : isStr v = false) :
    getTodos st now = getTodosMiss st now := by
  cases v with
  | str s => simp [isStr] at hns
  | none => simp only [getTodos, h, Option.getD]
  | bool b => simp only [getTodos, h, Option.getD]
  | int n => simp only [getTodos, h, Option.getD]
  | dt d => simp only [getTodos, h, Option.getD]
  | list xs => simp only [getTodos, h, Option.getD]
  | dict kvs => simp only [getTodos, h, Option.getD]

theorem getTodos_hit (st : St) (now : Nat) (s : String)
    (h : st.cache.get now = some (.str s)) (hne : ¬ s = "") :
    getTodos st now = ⟨loadsE s, st, [Ev.cacheGet]⟩ := by
  simp only [getTodos, h, Option.getD, if_neg hne]

theorem jsonize_none : jsonize .none = .none := rfl

theorem jsonize_bool (b : Bool) : jsonize (.bool b) = .bool b := rfl

theorem jsonize_int (n : Int) : jsonize (.int n) = .int n := rfl

theorem jsonize_str (s : String) : jsonize (.str s) = .str s := rfl

theorem jsonize_dt (d : DateTime) : jsonize (.dt d) = .str (isoformat d) := rfl

theorem jsonize_dict (kvs : List (String × PyVal)) :
    jsonize (.dict kvs) = .dict (jsonizeDict kvs) := rfl

/-! ### Concrete fixtures used by witnesses and counterexamples -/

/-- A sample timestamp. -/
def d0 : DateTime := ⟨2024, 1, 2, 3, 4, 5, 0⟩

/-- A sample stored row. -/
def row0 : Row := ⟨1, some "a", some true, d0⟩

/-- One stored row, no cache entry. -/
def stOneRow : St := ⟨⟨[row0], 2⟩, ⟨Option.none⟩⟩

/-- Empty store, no cache entry. -/
def stEmpty : St := ⟨⟨[], 1⟩, ⟨Option.none⟩⟩

/-- Empty store, a live cached payload `"[]"` (expiry 100). -/
def stCachedEmpty : St := ⟨⟨[], 1⟩, ⟨some (.str "[]", 100)⟩⟩

/-- One stored row, a live malformed cached payload `"x"`. -/
def stMalformed : St := ⟨⟨[row0], 2⟩, ⟨some (.str "x", 100)⟩⟩

/-- One stored row, a live non-string cached value. -/
def stNonString : St := ⟨⟨[row0], 2⟩, ⟨some (.int 5, 100)⟩⟩

/-! ### The claims -/

/-- C2: for every write operation (create, update, delete), the store
mutation is committed strictly before the cache invalidation is issued:
each handler's trace is connect, statement, commit, cache delete, and in
that trace every cache delete is preceded by a commit. -/
theorem write_commit_precedes_cache_invalidation
    (st1 st2 st3 : St) (t : String) (c : Option Bool) (d : ReqData)
    (i j : Nat) (now : DateTime) :
    (createTodo st1 ⟨some t, c⟩ now).tr =
        [Ev.dbConnect, Ev.dbQuery, Ev.dbCommit, Ev.cacheDel]
  ∧ (updateTodo st2 i d).tr = [Ev.dbConnect, Ev.dbQuery, Ev.dbCommit, Ev.cacheDel]
  ∧ (deleteTodo st3 j).tr = [Ev.dbConnect, Ev.dbQuery, Ev.dbCommit, Ev.cacheDel]
  ∧ commitPrecedesDel [Ev.dbConnect, Ev.dbQuery, Ev.dbCommit, Ev.cacheDel] = true :=
  ⟨rfl, rfl, rfl, rfl⟩

/-- C7 (counterexample): on a create request without a title the handler
does attempt a Record Store access — it opens the store connection before
evaluating `data['title']` — and the failure surfaced is a raw `KeyError`,
refuting "no Record Store access is attempted". -/
theorem create_missing_title_touches_store_cx :
    (createTodo stEmpty ⟨Option.none, Option.none⟩ d0).tr.any isStoreEv = true
  ∧ (createTodo stEmpty ⟨Option.none, Option.none⟩ d0).ret =
      .error (.keyError "title") := by
  decide

/-- C7 (amended): create with a missing title fails with a `KeyError`
raised while building the statement parameters: the store connection has
already been opened, but no statement is executed, nothing is committed,
the state is unchanged, and the cache is never touched. -/
theorem create_missing_title_keyerror_after_connect
    (st : St) (c : Option Bool) (now : DateTime) :
    createTodo st ⟨Option.none, c⟩ now =
      ⟨.error (.keyError "title"), st, [Ev.dbConnect]⟩ :=
  rfl

/-- C1 (counterexample): with a live cache entry and no row with id 7,
`update(7, …)` and `delete(7)` both delete the collection cache key — the
cache is not left untouched — and `delete(7)` returns the same success
message as a delete of an existing row, so its outcome is not distinct
from success. -/
theorem update_delete_missing_id_cx :
    ¬ ((updateTodo stCachedEmpty 7 ⟨Option.none, Option.none⟩).st.cache =
        stCachedEmpty.cache)
  ∧ ¬ ((deleteTodo stCachedEmpty 7).st.cache = stCachedEmpty.cache)
  ∧ (deleteTodo stCachedEmpty 7).ret =
      (deleteTodo ⟨⟨[⟨7, some "a", some false, d0⟩], 8⟩, stCachedEmpty.cache⟩ 7).ret := by
  decide

/-- C1 (amended): on an id matching no row, `get` touches only the store
and returns a null body with unchanged state; `update` returns a null
body, leaves the store unchanged, but still commits and deletes the
collection cache key; `delete` returns the same success message as for an
existing row, leaves the store unchanged, and also deletes the collection
cache key. -/
theorem missing_id_nullbody_and_invalidation (st : St) (i : Nat) (d : ReqData)
    (h : st.db.selectById i = Option.none) :
    (getTodo st i).ret = .ok PyVal.none
  ∧ (getTodo st i).st = st
  ∧ (getTodo st i).tr = [Ev.dbConnect, Ev.dbQuery]
  ∧ (updateTodo st i d).ret = .ok PyVal.none
  ∧ (updateTodo st i d).st.db = st.db
  ∧ (updateTodo st i d).st.cache.entry = Option.none
  ∧ (updateTodo st i d).tr = [Ev.dbConnect, Ev.dbQuery, Ev.dbCommit, Ev.cacheDel]
  ∧ (deleteTodo st i).ret = .ok (PyVal.dict [("message", PyVal.str "deleted")])
  ∧ (deleteTodo st i).st.db = st.db
  ∧ (deleteTodo st i).st.cache.entry = Option.none := by
  have hf : st.db.rows.find? (fun x => x.id == i) = Option.none := h
  refine ⟨?_, rfl, rfl, ?_, ?_, rfl, rfl, rfl, ?_, rfl⟩
  · simp only [getTodo, h, optRowToPy, pyRoundtrip]
    rfl
  · simp only [updateTodo, DB.updateById, hf, optRowToPy, pyRoundtrip]
    rfl
  · simp only [updateTodo, DB.updateById, hf]
  · simp only [deleteTodo, DB.deleteById, filter_no_match _ _ hf]

/-- C3: after a `list()` that misses the cache, the collection key holds the
serialized store contents with expiry `t1 + TTL`; a second `list()` at any
time `t2` inside the TTL window is served from that identical serialized
payload — its result is exactly `json.loads` of the cached string, equal to
the JSON shape of the store rows — with no store access (trace is just the
cache probe) and no state change. -/
theorem cached_list_within_ttl_no_store_access (st : St) (t1 t2 : Nat)
    (hm : st.cache.entry = Option.none) (ht : t2 < t1 + TTL) :
    (getTodos st t1).st.cache.entry =
      some (.str (dumps (.list (st.db.selectAll.map rowToPy))), t1 + TTL)
  ∧ (getTodos (getTodos st t1).st t2).ret =
      loadsE (dumps (.list (st.db.selectAll.map rowToPy)))
  ∧ (getTodos (getTodos st t1).st t2).ret =
      .ok (jsonize (.list (st.db.selectAll.map rowToPy)))
  ∧ (getTodos (getTodos st t1).st t2).tr = [Ev.cacheGet]
  ∧ (getTodos (getTodos st t1).st t2).st = (getTodos st t1).st := by
  have h0 : st.cache.get t1 = Option.none := by simp [Cache.get, hm]
  have h1 : getTodos st t1 = getTodosMiss st t1 := getTodos_of_none st t1 h0
  have hst1 : (getTodos st t1).st =
      ⟨st.db, ⟨some (.str (dumps (.list (st.db.selectAll.map rowToPy))), t1 + TTL)⟩⟩ := by
    rw [h1]
    rfl
  have hget : ((getTodos st t1).st).cache.get t2 =
      some (.str (dumps (.list (st.db.selectAll.map rowToPy)))) := by
    rw [hst1]
    simp [Cache.get, ht]
  have hne : ¬ dumps (.list (st.db.selectAll.map rowToPy)) = "" :=
    dumps_list_ne_empty _
  have h2 := getTodos_hit _ t2 _ hget hne
  refine ⟨by rw [hst1], by rw [h2], ?_, by rw [h2], by rw [h2]⟩
  rw [h2]
  exact loads_dumps _

/-- C3 (witness). -/
theorem cached_list_within_ttl_no_store_access_witness :
    (getTodos stOneRow 0).st.cache.entry =
      some (.str (dumps (.list (stOneRow.db.selectAll.map rowToPy))), 0 + TTL)
  ∧ (getTodos (getTodos stOneRow 0).st 30).ret =
      loadsE (dumps (.list (stOneRow.db.selectAll.map rowToPy)))
  ∧ (getTodos (getTodos stOneRow 0).st 30).ret =
      .ok (jsonize (.list (stOneRow.db.selectAll.map rowToPy)))
  ∧ (getTodos (getTodos stOneRow 0).st 30).tr = [Ev.cacheGet]
  ∧ (getTodos (getTodos stOneRow 0).st 30).st = (getTodos stOneRow 0).st :=
  cached_list_within_ttl_no_store_access stOneRow 0 30 rfl (by decide)

/-- C4: `list()` on an empty store returns the empty sequence and caches
the payload `"[]"` — an entry distinguishable from "no entry" — and a
second `list()` within the TTL hits that entry (trace is only the cache
probe, no store access) and again returns the empty sequence rather than
falling through. -/
theorem empty_store_list_caches_empty (st : St) (t1 t2 : Nat)
    (h0 : st.db.rows = []) (hm : st.cache.entry = Option.none) (ht : t2 < t1 + TTL) :
    (getTodos st t1).ret = .ok (.list [])
  ∧ (getTodos st t1).st.cache.entry = some (.str "[]", t1 + TTL)
  ∧ (getTodos (getTodos st t1).st t2).ret = .ok (.list [])
  ∧ (getTodos (getTodos st t1).st t2).tr = [Ev.cacheGet]
  ∧ (getTodos (getTodos st t1).st t2).st = (getTodos st t1).st := by
  have hc0 : st.cache.get t1 = Option.none := by simp [Cache.get, hm]
  have h1 : getTodos st t1 = getTodosMiss st t1 := getTodos_of_none st t1 hc0
  have hsel : st.db.selectAll = [] := h0
  have hst1 : (getTodos st t1).st = ⟨st.db, ⟨some (.str "[]", t1 + TTL)⟩⟩ := by
    rw [h1]
    simp only [getTodosMiss, hsel]
    rfl
  have hget : ((getTodos st t1).st).cache.get t2 = some (.str "[]") := by
    rw [hst1]
    simp [Cache.get, ht]
  have h2 := getTodos_hit _ t2 _ hget (by decide)
  refine ⟨?_, by rw [hst1], ?_, by rw [h2], by rw [h2, hst1]⟩
  · rw [h1]
    simp only [getTodosMiss, hsel]
    rfl
  · rw [h2]
    rfl

/-- C4 (witness). -/
theorem empty_store_list_caches_empty_witness :
    (getTodos stEmpty 0).ret = .ok (.list [])
  ∧ (getTodos stEmpty 0).st.cache.entry = some (.str "[]", 0 + TTL)
  ∧ (getTodos (getTodos stEmpty 0).st 59).ret = .ok (.list [])
  ∧ (getTodos (getTodos stEmpty 0).st 59).tr = [Ev.cacheGet]
  ∧ (getTodos (getTodos stEmpty 0).st 59).st = (getTodos stEmpty 0).st :=
  empty_store_list_caches_empty stEmpty 0 59 rfl rfl (by decide)

/-- C5 (counterexample): with a malformed cached payload `"x"` (and one
row in the store), `list()` does not degrade to the store: it returns the
propagated deserialization error, not the store-fresh rows, and performs
no store query. -/
theorem malformed_cache_payload_raises_cx :
    (getTodos stMalformed 0).ret = .error (.jsonError "Expecting value")
  ∧ ¬ ((getTodos stMalformed 0).ret = .ok (.list (stMalformed.db.selectAll.map rowToPy)))
  ∧ Ev.dbQuery ∉ (getTodos stMalformed 0).tr := by
  decide

/-- C5 (amended): a present cached value that is not a string is treated
as a cache miss (see the C9 theorem), but a present nonempty string
payload that fails to deserialize is not degraded to the store: the
`json.loads` error propagates to the caller, the store is never consulted,
and the cache entry is left as is. -/
theorem malformed_cache_payload_error_propagates (st : St) (now : Nat)
    (s : String) (e : PyErr) (hc : st.cache.get now = some (.str s))
    (hne : ¬ s = "") (hbad : loadsE s = .error e) :
    (getTodos st now).ret = .error e
  ∧ (getTodos st now).tr = [Ev.cacheGet]
  ∧ (getTodos st now).st = st := by
  have h2 := getTodos_hit st now s hc hne
  rw [h2]
  exact ⟨hbad, rfl, rfl⟩

/-- C5 (witness). -/
theorem malformed_cache_payload_error_propagates_witness :
    (getTodos stMalformed 0).ret = .error (.jsonError "Expecting value")
  ∧ (getTodos stMalformed 0).tr = [Ev.cacheGet]
  ∧ (getTodos stMalformed 0).st = stMalformed :=
  malformed_cache_payload_error_propagates stMalformed 0 "x"
    (.jsonError "Expecting value") rfl (by decide) rfl

/-- C9: a present cached value that is not a string fails the
`isinstance(cached_todos, str)` guard and is treated as a cache miss:
`list()` falls through to the store, returns the store rows, and
overwrites the cache entry with the freshly serialized result under a new
TTL. -/
theorem nonstring_cache_value_treated_as_miss (st : St) (now : Nat) (v : PyVal)
    (hv : st.cache.get now = some v) (hns : isStr v = false) :
    getTodos st now = getTodosMiss st now
  ∧ (getTodos st now).ret = .ok (.list (st.db.selectAll.map rowToPy))
  ∧ (getTodos st now).st.cache.entry =
      some (.str (dumps (.list (st.db.selectAll.map rowToPy))), now + TTL)
  ∧ (getTodos st now).tr = [Ev.cacheGet, Ev.dbConnect, Ev.dbQuery, Ev.cacheSet] := by
  have hm := getTodos_of_nonstr st now v hv hns
  rw [hm]
  exact ⟨rfl, rfl, rfl, rfl⟩

/-- C9 (witness). -/
theorem nonstring_cache_value_treated_as_miss_witness :
    getTodos stNonString 0 = getTodosMiss stNonString 0
  ∧ (getTodos stNonString 0).ret = .ok (.list (stNonString.db.selectAll.map rowToPy))
  ∧ (getTodos stNonString 0).st.cache.entry =
      some (.str (dumps (.list (stNonString.db.selectAll.map rowToPy))), 0 + TTL)
  ∧ (getTodos stNonString 0).tr = [Ev.cacheGet, Ev.dbConnect, Ev.dbQuery, Ev.cacheSet] :=
  nonstring_cache_value_treated_as_miss stNonString 0 (.int 5) rfl rfl

/-- C10: a `list()` that hits the cache performs no cache write of any
kind: the trace is exactly the cache probe (no set, no delete) and the
state — in particular the cache entry and its expiry — is unchanged, so
expiry stays measured from the populating miss. -/
theorem cache_hit_performs_no_cache_write (st : St) (now : Nat) (s : String)
    (hc : st.cache.get now = some (.str s)) (hne : ¬ s = "") :
    (getTodos st now).st = st
  ∧ (getTodos st now).st.cache = st.cache
  ∧ (getTodos st now).tr = [Ev.cacheGet]
  ∧ Ev.cacheSet ∉ (getTodos st now).tr
  ∧ Ev.cacheDel ∉ (getTodos st now).tr := by
  rw [getTodos_hit st now s hc hne]
  refine ⟨rfl, rfl, rfl, by simp, by simp⟩

/-- C10 (witness). -/
theorem cache_hit_performs_no_cache_write_witness :
    (getTodos stCachedEmpty 0).st = stCachedEmpty
  ∧ (getTodos stCachedEmpty 0).st.cache = stCachedEmpty.cache
  ∧ (getTodos stCachedEmpty 0).tr = [Ev.cacheGet]
  ∧ Ev.cacheSet ∉ (getTodos stCachedEmpty 0).tr
  ∧ Ev.cacheDel ∉ (getTodos stCachedEmpty 0).tr :=
  cache_hit_performs_no_cache_write stCachedEmpty 0 "[]" rfl (by decide)

/-- C6 (counterexample): the stored row has title `"a"`; an update
supplying only `completed` sets the title column to `None` (SQL NULL) —
the unsupplied field is not preserved. -/
theorem partial_update_clears_unsupplied_field_cx :
    stOneRow.db.selectById 1 = some ⟨1, some "a", some true, d0⟩
  ∧ (updateTodo stOneRow 1 ⟨Option.none, some false⟩).st.db.selectById 1 =
      some ⟨1, Option.none, some false, d0⟩
  ∧ ¬ ((updateTodo stOneRow 1 ⟨Option.none, some false⟩).st.db.selectById 1 =
      some ⟨1, some "a", some false, d0⟩) := by
  decide

/-- C6 (amended): on an existing row, update sets `title` and `completed`
to exactly the supplied request values — `None` for an unsupplied field,
not the previous value — while `id` and `created_at` are untouched; the
returned body is the serialized updated row and the collection cache key
is deleted. -/
theorem update_overwrites_both_fields (st : St) (i : Nat) (t : Option String)
    (c : Option Bool) (r : Row) (h : st.db.selectById i = some r) :
    (updateTodo st i ⟨t, c⟩).st.db.selectById i = some ⟨r.id, t, c, r.created_at⟩
  ∧ (updateTodo st i ⟨t, c⟩).ret = pyRoundtrip (rowToPy ⟨r.id, t, c, r.created_at⟩)
  ∧ (updateTodo st i ⟨t, c⟩).st.cache.entry = Option.none := by
  have hf : st.db.rows.find? (fun x => x.id == i) = some r := h
  have hupd : st.db.updateById i t c =
      (⟨st.db.rows.map (fun x => if x.id == i then Row.mk r.id t c r.created_at else x),
        st.db.nextId⟩,
       some (Row.mk r.id t c r.created_at)) := by
    simp only [DB.updateById, hf]
  refine ⟨?_, ?_, rfl⟩
  · simp only [updateTodo, hupd, DB.selectById]
    exact find?_update_row st.db.rows i r _ hf rfl
  · simp only [updateTodo, hupd, optRowToPy]

/-- C6 (witness). -/
theorem update_overwrites_both_fields_witness :
    (updateTodo stOneRow 1 ⟨some "b", some false⟩).st.db.selectById 1 =
      some ⟨row0.id, some "b", some false, row0.created_at⟩
  ∧ (updateTodo stOneRow 1 ⟨some "b", some false⟩).ret =
      pyRoundtrip (rowToPy ⟨row0.id, some "b", some false, row0.created_at⟩)
  ∧ (updateTodo stOneRow 1 ⟨some "b", some false⟩).st.cache.entry = Option.none :=
  update_overwrites_both_fields stOneRow 1 (some "b") (some false) row0 rfl

/-- C8: for every row — arbitrary (possibly null) unicode title, boolean
completed flag, arbitrary timestamp — serializing into the cache format
and deserializing yields exactly the row's JSON shape, and the spec's
reader recovers a value equal to the original row in all fields, the
timestamp included (via its unambiguous ISO-8601 textual form). -/
theorem record_serialization_roundtrip (r : Row) :
    loadsE (dumps (rowToPy r)) = .ok (jsonize (rowToPy r))
  ∧ decodeRow (jsonize (rowToPy r)) = some r := by
  refine ⟨loads_dumps _, ?_⟩
  obtain ⟨i, t, c, d⟩ := r
  cases t with
  | none =>
    cases c with
    | none =>
      have h1 : decodeRow (jsonize (rowToPy (⟨i, Option.none, Option.none, d⟩ : Row))) =
          (if ("id" : String) = "id" then
             if ("title" : String) = "title" then
               if ("completed" : String) = "completed" then
                 if ("created_at" : String) = "created_at" then
                   (match (some (Option.none : Option String)), (some (Option.none : Option Bool)),
                          fromIso (isoformat d) with
                    | some t, some c, some d' => some (⟨i, t, c, d'⟩ : Row)
                    | _, _, _ => Option.none)
                 else Option.none
               else Option.none
             else Option.none
           else Option.none) := rfl
      rw [h1, if_pos rfl, if_pos rfl, if_pos rfl, if_pos rfl, fromIso_isoformat]
    | some b =>
      have h1 : decodeRow (jsonize (rowToPy (⟨i, Option.none, some b, d⟩ : Row))) =
          (if ("id" : String) = "id" then
             if ("title" : String) = "title" then
               if ("completed" : String) = "completed" then
                 if ("created_at" : String) = "created_at" then
                   (match (some (Option.none : Option String)), (some (some b : Option Bool)),
                          fromIso (isoformat d) with
                    | some t, some c, some d' => some (⟨i, t, c, d'⟩ : Row)
                    | _, _, _ => Option.none)
                 else Option.none
               else Option.none
             else Option.none
           else Option.none) := rfl
      rw [h1, if_pos rfl, if_pos rfl, if_pos rfl, if_pos rfl, fromIso_isoformat]
  | some t =>
    cases c with
    | none =>
      have h1 : decodeRow (jsonize (rowToPy (⟨i, some t, Option.none, d⟩ : Row))) =
          (if ("id" : String) = "id" then
             if ("title" : String) = "title" then
               if ("completed" : String) = "completed" then
                 if ("created_at" : String) = "created_at" then
                   (match (some (some t : Option String)), (some (Option.none : Option Bool)),
                          fromIso (isoformat d) with
                    | some t, some c, some d' => some (⟨i, t, c, d'⟩ : Row)
                    | _, _, _ => Option.none)
                 else Option.none
               else Option.none
             else Option.none
           else Option.none) := rfl
      rw [h1, if_pos rfl, if_pos rfl, if_pos rfl, if_pos rfl, fromIso_isoformat]
    | some b =>
      have h1 : decodeRow (jsonize (rowToPy (⟨i, some t, some b, d⟩ : Row))) =
          (if ("id" : String) = "id" then
             if ("title" : String) = "title" then
               if ("completed" : String) = "completed" then
                 if ("created_at" : String) = "created_at" then
                   (match (some (some t : Option String)), (some (some b : Option Bool)),
                          fromIso (isoformat d) with
                    | some t, some c, some d' => some (⟨i, t, c, d'⟩ : Row)
                    | _, _, _ => Option.none)
                 else Option.none
               else Option.none
             else Option.none
           else Option.none) := rfl
      rw [h1, if_pos rfl, if_pos rfl, if_pos rfl, if_pos rfl, fromIso_isoformat]

/-- C1 (witness). -/
theorem missing_id_nullbody_and_invalidation_witness :
    (getTodo stEmpty 3).ret = .ok PyVal.none
  ∧ (getTodo stEmpty 3).st = stEmpty
  ∧ (getTodo stEmpty 3).tr = [Ev.dbConnect, Ev.dbQuery]
  ∧ (updateTodo stEmpty 3 ⟨Option.none, Option.none⟩).ret = .ok PyVal.none
  ∧ (updateTodo stEmpty 3 ⟨Option.none, Option.none⟩).st.db = stEmpty.db
  ∧ (updateTodo stEmpty 3 ⟨Option.none, Option.none⟩).st.cache.entry = Option.none
  ∧ (updateTodo stEmpty 3 ⟨Option.none, Option.none⟩).tr =
      [Ev.dbConnect, Ev.dbQuery, Ev.dbCommit, Ev.cacheDel]
  ∧ (deleteTodo stEmpty 3).ret = .ok (PyVal.dict [("message", PyVal.str "deleted")])
  ∧ (deleteTodo stEmpty 3).st.db = stEmpty.db
  ∧ (deleteTodo stEmpty 3).st.cache.entry = Option.none :=
  missing_id_nullbody_and_invalidation stEmpty 3 ⟨Option.none, Option.none⟩ rfl

end TodoApp
